import Mathlib

/-!
Verification development for the OrionBelt ontology builder core
(`ontology_manager.py`).  The triple store is shallowly embedded: Python
strings become lists of characters (code points), rdflib terms become the
`Node` sum type, the rdflib `Graph` (a set of triples kept in insertion
order) becomes a duplicate-free-by-construction `List Triple`, and each
method of `OntologyManager` becomes an executable Lean function on a
`Manager` record.  Sequential `remove`/`add` loops of the source are
embedded as folds over the collected update pairs, exactly as the code
collects-then-applies them.
-/

set_option maxRecDepth 10000
set_option maxHeartbeats 1000000

namespace Orion

/-- Python strings are sequences of code points; we embed them as `List Char`. -/
abbrev Str := List Char

/-- View a Lean string literal as an embedded Python string. -/
def str (s : String) : Str := s.data

/-- An rdflib term: a named URI reference, an anonymous node (numbered by an
allocation counter standing in for rdflib's opaque ids), or a literal with an
optional language tag and an optional datatype URI. -/
inductive Node where
  | uri (s : Str)
  | bnode (k : Nat)
  | lit (value : Str) (lang : Option Str) (dt : Option Str)
deriving DecidableEq, Repr

/-- A subject, predicate, object triple. -/
structure Triple where
  s : Node
  p : Node
  o : Node
deriving DecidableEq, Repr

/-- Equality of fallible results is decidable (needed to evaluate the
concrete scenarios). -/
instance {ε α : Type} [DecidableEq ε] [DecidableEq α] : DecidableEq (Except ε α) := fun a b =>
  match a, b with
  | .error x, .error y =>
    if h : x = y then isTrue (by rw [h]) else isFalse (fun he => h (by injection he))
  | .error _, .ok _ => isFalse (fun he => Except.noConfusion he)
  | .ok _, .error _ => isFalse (fun he => Except.noConfusion he)
  | .ok x, .ok y =>
    if h : x = y then isTrue (by rw [h]) else isFalse (fun he => h (by injection he))

/-- Idempotent insert: `Graph.add` has set semantics; a fresh triple is
appended, preserving rdflib's insertion order. -/
def addT (g : List Triple) (t : Triple) : List Triple :=
  if t ∈ g then g else g ++ [t]

/-- Remove one triple (`Graph.remove` of a fully concrete pattern). -/
def removeT (g : List Triple) (t : Triple) : List Triple :=
  g.filter (fun x => decide (x ≠ t))

/-- Remove every triple with the given subject (`remove((s, None, None))`). -/
def removeSubj (g : List Triple) (n : Node) : List Triple :=
  g.filter (fun t => decide (t.s ≠ n))

/-- Remove every triple with the given subject and predicate
(`remove((s, p, None))`). -/
def removeSP (g : List Triple) (sn pn : Node) : List Triple :=
  g.filter (fun t => !(decide (t.s = sn) && decide (t.p = pn)))

/-- `Graph.value(s, p)`: the object of the first matching triple, if any. -/
def graphValue (g : List Triple) (sn pn : Node) : Option Node :=
  ((g.filter (fun t => decide (t.s = sn) && decide (t.p = pn))).head?).map Triple.o

/-- The collect-then-apply loops of `rename_*` and `set_base_uri`: for each
collected pair the old triple is removed and the new one added, in order. -/
def applyUpdates (g : List Triple) (ups : List (Triple × Triple)) : List Triple :=
  ups.foldl (fun h q => addT (removeT h q.1) q.2) g

/-- Association lookup in a vocabulary table (Python `dict.get`). -/
def lookupStr (l : List (Str × Node)) (k : Str) : Option Node :=
  match l with
  | [] => none
  | (a, b) :: rest => if k = a then some b else lookupStr rest k

/-- Split on a single-character separator, Python `str.split(sep)`. -/
def splitOnChar (sep : Char) : Str → List Str
  | [] => [[]]
  | c :: cs =>
    match splitOnChar sep cs with
    | [] => [[]]
    | r :: rs => if c = sep then [] :: r :: rs else (c :: r) :: rs

/-- `_local_name`: the text after the last `#` when one occurs, else after
the last `/` (`uri_str.split("#")[-1]` / `uri_str.split("/")[-1]`). -/
def localName (u : Str) : Str :=
  if u.contains '#' then (splitOnChar '#' u).getLastD []
  else (splitOnChar '/' u).getLastD []

/-- Python `str(node)`: the URI text, the literal's lexical form, or the
anonymous node's opaque label. -/
def nodeStr : Node → Str
  | .uri s => s
  | .bnode k => 'N' :: (Nat.repr k).data
  | .lit v _ _ => v

/-- `_local_name` applied to a term (the source first takes `str(uri)`). -/
def nodeLocalName (n : Node) : Str := localName (nodeStr n)

/-- Strip all trailing copies of one character, Python `str.rstrip(c)`. -/
def rstripC (s : Str) (c : Char) : Str :=
  (s.reverse.dropWhile (fun x => decide (x = c))).reverse

/-- Python `str.endswith(c)` for a single character. -/
def endsWithC (s : Str) (c : Char) : Bool :=
  s.getLast? == some c

/-- Whether the term is a named URI reference (`isinstance(x, URIRef)`). -/
def isUriN : Node → Bool
  | .uri _ => true
  | _ => false

/-- Whether the term is an anonymous node (`isinstance(x, BNode)`). -/
def isBNodeN : Node → Bool
  | .bnode _ => true
  | _ => false

/-- Decimal rendering of a natural number, Python `str(int(...))`. -/
def natToStr (n : Nat) : Str := (Nat.repr n).data

/-- Best-effort digit parse standing in for Python `int(str)` on the digit
strings the UI passes; claims only exercise the numeric branch. -/
def strToNat (s : Str) : Nat :=
  s.foldl (fun acc c => acc * 10 + (c.toNat - '0'.toNat)) 0

/-- A restriction value is duck-typed in the source (`value: Any`); the call
sites pass either a name string or a number. -/
inductive RVal where
  | s (v : Str)
  | n (v : Nat)
deriving DecidableEq, Repr

/-- The string reading of a restriction value (used by `_uri(value)`). -/
def rvalStr : RVal → Str
  | .s v => v
  | .n k => natToStr k

/-- The integer reading of a restriction value (used by `int(value)`). -/
def rvalNat : RVal → Nat
  | .n k => k
  | .s v => strToNat v

/-- Case-sensitive ordinal (code-point lexicographic) string comparison,
Python `<=` on `str`, as used by `sorted(key=...)`. -/
def strLeB : Str → Str → Bool
  | [], _ => true
  | _ :: _, [] => false
  | a :: as, b :: bs => if a = b then strLeB as bs else decide (a < b)

/-- One step of the stable insertion modelling Python's stable `sorted`. -/
def insertSorted (le : α → α → Bool) (x : α) : List α → List α
  | [] => [x]
  | y :: ys => if le x y then x :: y :: ys else y :: insertSorted le x ys

/-- Stable sort by a boolean comparison (Python `sorted` with a key). -/
def sortBy (le : α → α → Bool) (l : List α) : List α :=
  l.foldr (insertSorted le) []

/-! Vocabulary terms (the rdflib namespace members the manager uses). -/

def rdfType : Node := .uri (str "http://www.w3.org/1999/02/22-rdf-syntax-ns#type")

def rdfFirst : Node := .uri (str "http://www.w3.org/1999/02/22-rdf-syntax-ns#first")

def rdfRest : Node := .uri (str "http://www.w3.org/1999/02/22-rdf-syntax-ns#rest")

def rdfNilN : Node := .uri (str "http://www.w3.org/1999/02/22-rdf-syntax-ns#nil")

def rdfsLabel : Node := .uri (str "http://www.w3.org/2000/01/rdf-schema#label")

def rdfsComment : Node := .uri (str "http://www.w3.org/2000/01/rdf-schema#comment")

def rdfsSeeAlso : Node := .uri (str "http://www.w3.org/2000/01/rdf-schema#seeAlso")

def rdfsIsDefinedBy : Node := .uri (str "http://www.w3.org/2000/01/rdf-schema#isDefinedBy")

def rdfsSubClassOf : Node := .uri (str "http://www.w3.org/2000/01/rdf-schema#subClassOf")

def rdfsDomain : Node := .uri (str "http://www.w3.org/2000/01/rdf-schema#domain")

def rdfsRange : Node := .uri (str "http://www.w3.org/2000/01/rdf-schema#range")

def owlClass : Node := .uri (str "http://www.w3.org/2002/07/owl#Class")

def owlObjectProperty : Node := .uri (str "http://www.w3.org/2002/07/owl#ObjectProperty")

def owlDatatypeProperty : Node := .uri (str "http://www.w3.org/2002/07/owl#DatatypeProperty")

def owlFunctionalProperty : Node := .uri (str "http://www.w3.org/2002/07/owl#FunctionalProperty")

def owlNamedIndividual : Node := .uri (str "http://www.w3.org/2002/07/owl#NamedIndividual")

def owlOntology : Node := .uri (str "http://www.w3.org/2002/07/owl#Ontology")

def owlRestriction : Node := .uri (str "http://www.w3.org/2002/07/owl#Restriction")

def owlOnProperty : Node := .uri (str "http://www.w3.org/2002/07/owl#onProperty")

def owlOnClass : Node := .uri (str "http://www.w3.org/2002/07/owl#onClass")

def owlSomeValuesFrom : Node := .uri (str "http://www.w3.org/2002/07/owl#someValuesFrom")

def owlAllValuesFrom : Node := .uri (str "http://www.w3.org/2002/07/owl#allValuesFrom")

def owlHasValue : Node := .uri (str "http://www.w3.org/2002/07/owl#hasValue")

def owlMinCardinality : Node := .uri (str "http://www.w3.org/2002/07/owl#minCardinality")

def owlMaxCardinality : Node := .uri (str "http://www.w3.org/2002/07/owl#maxCardinality")

def owlCardinality : Node := .uri (str "http://www.w3.org/2002/07/owl#cardinality")

def owlMinQualifiedCardinality : Node :=
  .uri (str "http://www.w3.org/2002/07/owl#minQualifiedCardinality")

def owlMaxQualifiedCardinality : Node :=
  .uri (str "http://www.w3.org/2002/07/owl#maxQualifiedCardinality")

def owlQualifiedCardinality : Node :=
  .uri (str "http://www.w3.org/2002/07/owl#qualifiedCardinality")

def owlPropertyChainAxiom : Node := .uri (str "http://www.w3.org/2002/07/owl#propertyChainAxiom")

def owlUnionOf : Node := .uri (str "http://www.w3.org/2002/07/owl#unionOf")

def owlIntersectionOf : Node := .uri (str "http://www.w3.org/2002/07/owl#intersectionOf")

def owlComplementOf : Node := .uri (str "http://www.w3.org/2002/07/owl#complementOf")

def owlOneOf : Node := .uri (str "http://www.w3.org/2002/07/owl#oneOf")

def owlDeprecated : Node := .uri (str "http://www.w3.org/2002/07/owl#deprecated")

def skosPrefLabel : Node := .uri (str "http://www.w3.org/2004/02/skos/core#prefLabel")

def skosAltLabel : Node := .uri (str "http://www.w3.org/2004/02/skos/core#altLabel")

def skosDefinition : Node := .uri (str "http://www.w3.org/2004/02/skos/core#definition")

def skosExample : Node := .uri (str "http://www.w3.org/2004/02/skos/core#example")

def skosNote : Node := .uri (str "http://www.w3.org/2004/02/skos/core#note")

def dctermsTitle : Node := .uri (str "http://purl.org/dc/terms/title")

def dctermsDescription : Node := .uri (str "http://purl.org/dc/terms/description")

def dctermsCreator : Node := .uri (str "http://purl.org/dc/terms/creator")

def dctermsContributor : Node := .uri (str "http://purl.org/dc/terms/contributor")

def dctermsDate : Node := .uri (str "http://purl.org/dc/terms/date")

def xsdString : Node := .uri (str "http://www.w3.org/2001/XMLSchema#string")

def xsdInteger : Node := .uri (str "http://www.w3.org/2001/XMLSchema#integer")

def xsdFloat : Node := .uri (str "http://www.w3.org/2001/XMLSchema#float")

def xsdDouble : Node := .uri (str "http://www.w3.org/2001/XMLSchema#double")

def xsdBoolean : Node := .uri (str "http://www.w3.org/2001/XMLSchema#boolean")

def xsdDate : Node := .uri (str "http://www.w3.org/2001/XMLSchema#date")

def xsdDateTime : Node := .uri (str "http://www.w3.org/2001/XMLSchema#dateTime")

def xsdTime : Node := .uri (str "http://www.w3.org/2001/XMLSchema#time")

def xsdDecimal : Node := .uri (str "http://www.w3.org/2001/XMLSchema#decimal")

def xsdAnyURI : Node := .uri (str "http://www.w3.org/2001/XMLSchema#anyURI")

def xsdNonNegativeInteger : Node :=
  .uri (str "http://www.w3.org/2001/XMLSchema#nonNegativeInteger")

def xsdPositiveInteger : Node := .uri (str "http://www.w3.org/2001/XMLSchema#positiveInteger")

/-- `XSD_DATATYPES`, in source order. -/
def xsdDatatypes : List (Str × Node) := [
  (str "string", xsdString), (str "integer", xsdInteger), (str "float", xsdFloat),
  (str "double", xsdDouble), (str "boolean", xsdBoolean), (str "date", xsdDate),
  (str "dateTime", xsdDateTime), (str "time", xsdTime), (str "decimal", xsdDecimal),
  (str "anyURI", xsdAnyURI), (str "nonNegativeInteger", xsdNonNegativeInteger),
  (str "positiveInteger", xsdPositiveInteger)]

/-- `RESTRICTION_TYPES`, in source (insertion) order — the order matters for
the first-match scan in `get_restrictions`. -/
def restrictionTypes : List (Str × Node) := [
  (str "someValuesFrom", owlSomeValuesFrom),
  (str "allValuesFrom", owlAllValuesFrom),
  (str "hasValue", owlHasValue),
  (str "minCardinality", owlMinCardinality),
  (str "maxCardinality", owlMaxCardinality),
  (str "exactCardinality", owlCardinality),
  (str "minQualifiedCardinality", owlMinQualifiedCardinality),
  (str "maxQualifiedCardinality", owlMaxQualifiedCardinality),
  (str "qualifiedCardinality", owlQualifiedCardinality)]

/-- The `annotation_predicates` table of `add_annotation` (15 entries). -/
def annotPreds : List (Str × Node) := [
  (str "label", rdfsLabel), (str "comment", rdfsComment),
  (str "seeAlso", rdfsSeeAlso), (str "isDefinedBy", rdfsIsDefinedBy),
  (str "prefLabel", skosPrefLabel), (str "altLabel", skosAltLabel),
  (str "definition", skosDefinition), (str "example", skosExample),
  (str "note", skosNote), (str "title", dctermsTitle),
  (str "description", dctermsDescription), (str "creator", dctermsCreator),
  (str "contributor", dctermsContributor), (str "date", dctermsDate),
  (str "deprecated", owlDeprecated)]

/-- The `annotation_predicates` table of `delete_annotation` (only 6 entries). -/
def annotPredsDel : List (Str × Node) := [
  (str "label", rdfsLabel), (str "comment", rdfsComment),
  (str "prefLabel", skosPrefLabel), (str "altLabel", skosAltLabel),
  (str "definition", skosDefinition), (str "note", skosNote)]

/-! The manager state and its operations. -/

/-- The mutable state of an `OntologyManager`: the graph, the base URI, the
ontology declaration identifier and an allocation counter for fresh
anonymous nodes. -/
structure Manager where
  graph : List Triple
  base_uri : Str
  ontology_uri : Node
  ctr : Nat
deriving DecidableEq, Repr

/-- `__init__(base_uri)`: records the base, derives the ontology identifier by
stripping the trailing separator, and adds the ontology declaration triple. -/
def initManager (baseUri : Str) : Manager :=
  let ontUri : Node := .uri (rstripC (rstripC baseUri '#') '/')
  { graph := [⟨ontUri, rdfType, owlOntology⟩],
    base_uri := baseUri, ontology_uri := ontUri, ctr := 0 }

/-- `_uri(local_name)`: absolute URIs pass through, other names are resolved
against the current base namespace. -/
def resolveUri (m : Manager) (name : Str) : Node :=
  if (str "http://").isPrefixOf name || (str "https://").isPrefixOf name then .uri name
  else .uri (m.base_uri ++ name)

/-- `add_class(name, parent, label, comment)`. -/
def addClass (m : Manager) (name : Str) (parent label comment : Option Str) : Manager :=
  let cu := resolveUri m name
  let g0 := addT m.graph ⟨cu, rdfType, owlClass⟩
  let g1 := match parent with
    | some p => if p ≠ [] then addT g0 ⟨cu, rdfsSubClassOf, resolveUri m p⟩ else g0
    | none => g0
  let g2 := match label with
    | some l => if l ≠ [] then addT g1 ⟨cu, rdfsLabel, .lit l none none⟩ else g1
    | none => g1
  let g3 := match comment with
    | some c => if c ≠ [] then addT g2 ⟨cu, rdfsComment, .lit c none none⟩ else g2
    | none => g2
  { m with graph := g3 }

/-- `add_data_property(name, domain, range_, label, comment, functional)`;
the range name is translated through `XSD_DATATYPES` with a `string`
fallback. -/
def addDataProperty (m : Manager) (name : Str) (domain range_ label comment : Option Str)
    (functional : Bool) : Manager :=
  let pu := resolveUri m name
  let g0 := addT m.graph ⟨pu, rdfType, owlDatatypeProperty⟩
  let g1 := match domain with
    | some d => if d ≠ [] then addT g0 ⟨pu, rdfsDomain, resolveUri m d⟩ else g0
    | none => g0
  let g2 := match range_ with
    | some r => if r ≠ [] then addT g1 ⟨pu, rdfsRange, (lookupStr xsdDatatypes r).getD xsdString⟩
                else g1
    | none => g1
  let g3 := match label with
    | some l => if l ≠ [] then addT g2 ⟨pu, rdfsLabel, .lit l none none⟩ else g2
    | none => g2
  let g4 := match comment with
    | some c => if c ≠ [] then addT g3 ⟨pu, rdfsComment, .lit c none none⟩ else g3
    | none => g3
  let g5 := if functional then addT g4 ⟨pu, rdfType, owlFunctionalProperty⟩ else g4
  { m with graph := g5 }

/-- `rename_class(old_name, new_name)`: equal names short-circuit to `True`;
a `Class`-typed target refuses with `False`; otherwise the subject updates
and the object updates are collected from the graph and applied in order. -/
def renameClass (m : Manager) (oldName newName : Str) : Bool × Manager :=
  if oldName = newName then (true, m)
  else
    let oldUri := resolveUri m oldName
    let newUri := resolveUri m newName
    if Triple.mk newUri rdfType owlClass ∈ m.graph then (false, m)
    else
      let ups := (m.graph.filter (fun t => decide (t.s = oldUri))).map
                   (fun t => (t, { t with s := newUri }))
              ++ (m.graph.filter (fun t => decide (t.o = oldUri))).map
                   (fun t => (t, { t with o := newUri }))
      (true, { m with graph := applyUpdates m.graph ups })

/-- `rename_property(old_name, new_name)`: like `rename_class` with the
collision check against both property types and a third update pass over
the predicate position. -/
def renameProperty (m : Manager) (oldName newName : Str) : Bool × Manager :=
  if oldName = newName then (true, m)
  else
    let oldUri := resolveUri m oldName
    let newUri := resolveUri m newName
    if Triple.mk newUri rdfType owlObjectProperty ∈ m.graph ∨
       Triple.mk newUri rdfType owlDatatypeProperty ∈ m.graph then (false, m)
    else
      let ups := (m.graph.filter (fun t => decide (t.s = oldUri))).map
                   (fun t => (t, { t with s := newUri }))
              ++ (m.graph.filter (fun t => decide (t.o = oldUri))).map
                   (fun t => (t, { t with o := newUri }))
              ++ (m.graph.filter (fun t => decide (t.p = oldUri))).map
                   (fun t => (t, { t with p := newUri }))
      (true, { m with graph := applyUpdates m.graph ups })

/-- `rename_individual(old_name, new_name)`. -/
def renameIndividual (m : Manager) (oldName newName : Str) : Bool × Manager :=
  if oldName = newName then (true, m)
  else
    let oldUri := resolveUri m oldName
    let newUri := resolveUri m newName
    if Triple.mk newUri rdfType owlNamedIndividual ∈ m.graph then (false, m)
    else
      let ups := (m.graph.filter (fun t => decide (t.s = oldUri))).map
                   (fun t => (t, { t with s := newUri }))
              ++ (m.graph.filter (fun t => decide (t.o = oldUri))).map
                   (fun t => (t, { t with o := newUri }))
      (true, { m with graph := applyUpdates m.graph ups })

/-- A flattened class record as assembled by `get_classes`. -/
structure ClassRec where
  uri : Str
  name : Str
  label : Str
  comment : Str
  parents : List Str
  children : List Str
deriving DecidableEq, Repr

/-- The unsorted record list of `get_classes` (anonymous classes skipped,
parents and children restricted to named identifiers). -/
def classRecords (m : Manager) : List ClassRec :=
  ((m.graph.filter (fun t => decide (t.p = rdfType) && decide (t.o = owlClass))).map
      Triple.s).filterMap (fun c =>
    match c with
    | .bnode _ => none
    | _ => some
      { uri := nodeStr c
        name := nodeLocalName c
        label := match graphValue m.graph c rdfsLabel with
          | some v => nodeStr v
          | none => []
        comment := match graphValue m.graph c rdfsComment with
          | some v => nodeStr v
          | none => []
        parents := (m.graph.filter (fun t =>
            decide (t.s = c) && decide (t.p = rdfsSubClassOf))).filterMap (fun t =>
          if isUriN t.o then some (nodeLocalName t.o) else none)
        children := (m.graph.filter (fun t =>
            decide (t.p = rdfsSubClassOf) && decide (t.o = c))).filterMap (fun t =>
          if isUriN t.s then some (nodeLocalName t.s) else none) })

/-- `get_classes()`: the records, sorted by the raw local name
(`sorted(classes, key=lambda x: x["name"])`). -/
def getClasses (m : Manager) : List ClassRec :=
  sortBy (fun a b => strLeB a.name b.name) (classRecords m)

/-- `add_restriction(class_name, property_name, restriction_type, value,
on_class)`: allocates a fresh anonymous node, adds its type and
`onProperty` triples, then dispatches on the restriction kind — raising
`ValueError` for an unknown kind only after those two triples are in the
graph.  The manager state (mutated in place in Python) is returned
alongside the outcome.  The value is duck-typed in the source; passing a
number where a name string is consumed is undefined there (the source
would fault on `value.startswith`), and those branches are never exercised
by its callers. -/
def addRestriction (m : Manager) (className propName rtype : Str) (value : RVal)
    (onClass : Option Str) : Manager × Except Str Node :=
  let classUri := resolveUri m className
  let propUri := resolveUri m propName
  let r : Node := .bnode m.ctr
  let m2 : Manager :=
    { m with
      ctr := m.ctr + 1
      graph := addT (addT m.graph ⟨r, rdfType, owlRestriction⟩) ⟨r, owlOnProperty, propUri⟩ }
  match lookupStr restrictionTypes rtype with
  | none => (m2, .error (str "Unknown restriction type: " ++ rtype))
  | some rpred =>
    let g3 :=
      if rtype = str "someValuesFrom" ∨ rtype = str "allValuesFrom" then
        addT m2.graph ⟨r, rpred, resolveUri m2 (rvalStr value)⟩
      else if rtype = str "hasValue" then
        match value with
        | .s sv =>
          if (str "http").isPrefixOf sv then addT m2.graph ⟨r, rpred, resolveUri m2 sv⟩
          else addT m2.graph ⟨r, rpred, .lit sv none none⟩
        | .n k => addT m2.graph ⟨r, rpred, resolveUri m2 (natToStr k)⟩
      else if rtype = str "minCardinality" ∨ rtype = str "maxCardinality" ∨
              rtype = str "exactCardinality" then
        addT m2.graph ⟨r, rpred, .lit (natToStr (rvalNat value)) none (some (nodeStr xsdNonNegativeInteger))⟩
      else if rtype = str "minQualifiedCardinality" ∨ rtype = str "maxQualifiedCardinality" ∨
              rtype = str "qualifiedCardinality" then
        let ga := addT m2.graph ⟨r, rpred, .lit (natToStr (rvalNat value)) none (some (nodeStr xsdNonNegativeInteger))⟩
        match onClass with
        | some oc => if oc ≠ [] then addT ga ⟨r, owlOnClass, resolveUri m2 oc⟩ else ga
        | none => ga
      else m2.graph
    ({ m2 with graph := addT g3 ⟨classUri, rdfsSubClassOf, r⟩ }, .ok r)

/-- A flattened restriction record as assembled by `get_restrictions`. -/
structure RestRec where
  property : Str
  rtype : Option Str
  value : Option Str
  on_class : Option Str
  applied_to : List Str
deriving DecidableEq, Repr

/-- The display of a restriction value: local name for a named identifier,
otherwise `str(val)`. -/
def restrValStr (n : Node) : Str :=
  match n with
  | .uri s => localName s
  | other => nodeStr other

/-- `get_restrictions(class_name)`: one record per `Restriction`-typed node
with an `onProperty` value, the kind determined by the first
`RESTRICTION_TYPES` entry with a value, optionally filtered to records
applied to the given class.  No sort is applied. -/
def getRestrictions (m : Manager) (className : Option Str) : List RestRec :=
  ((m.graph.filter (fun t => decide (t.p = rdfType) && decide (t.o = owlRestriction))).map
      Triple.s).filterMap (fun r =>
    match graphValue m.graph r owlOnProperty with
    | none => none
    | some prop =>
      let tv := restrictionTypes.findSome? (fun q =>
        (graphValue m.graph r q.2).map (fun v => (q.1, restrValStr v)))
      let rec0 : RestRec :=
        { property := nodeLocalName prop
          rtype := tv.map Prod.fst
          value := tv.map Prod.snd
          on_class := (graphValue m.graph r owlOnClass).map nodeLocalName
          applied_to := (m.graph.filter (fun t =>
              decide (t.p = rdfsSubClassOf) && decide (t.o = r))).filterMap (fun t =>
            if isUriN t.s then some (nodeLocalName t.s) else none) }
      match className with
      | none => some rec0
      | some cn => if cn ∈ rec0.applied_to then some rec0 else none)

/-- `delete_restriction(class_name, property_name, restriction_type)`: scans
the `Restriction`-typed nodes in store order, removes the first one whose
`onProperty` matches, that is attached to the class, and that carries a
value for the kind's predicate; removes the attachment edge and all the
node's own triples. -/
def deleteRestriction (m : Manager) (className propName rtype : Str) : Bool × Manager :=
  let classUri := resolveUri m className
  let propUri := resolveUri m propName
  let cands := (m.graph.filter (fun t =>
      decide (t.p = rdfType) && decide (t.o = owlRestriction))).map Triple.s
  match cands.find? (fun r =>
      decide (graphValue m.graph r owlOnProperty = some propUri) &&
      decide (Triple.mk classUri rdfsSubClassOf r ∈ m.graph) &&
      (match lookupStr restrictionTypes rtype with
       | some pd => (graphValue m.graph r pd).isSome
       | none => false)) with
  | some r =>
      (true, { m with graph := removeSubj (removeT m.graph ⟨classUri, rdfsSubClassOf, r⟩) r })
  | none => (false, m)

/-- `add_annotation(subject, predicate, value, lang)`: full URIs pass
through, short names go through the 15-entry table with a namespace
fallback; the value is a literal with an optional language tag. -/
def addAnnot (m : Manager) (subject predicate value : Str) (lang : Option Str) : Manager :=
  let su := resolveUri m subject
  let pu :=
    if (str "http://").isPrefixOf predicate || (str "https://").isPrefixOf predicate then
      Node.uri predicate
    else (lookupStr annotPreds predicate).getD (resolveUri m predicate)
  { m with graph := addT m.graph ⟨su, pu, .lit value lang none⟩ }

/-- `delete_annotation(subject, predicate, value=None)`: the short name is
resolved through the 6-entry table with a namespace fallback; with a
truthy value only that plain literal is removed, otherwise every triple
for (subject, predicate). -/
def deleteAnnot (m : Manager) (subject predicate : Str) (value : Option Str) : Manager :=
  let su := resolveUri m subject
  let pu := (lookupStr annotPredsDel predicate).getD (resolveUri m predicate)
  match value with
  | some v =>
      if v ≠ [] then { m with graph := removeT m.graph ⟨su, pu, .lit v none none⟩ }
      else { m with graph := removeSP m.graph su pu }
  | none => { m with graph := removeSP m.graph su pu }

/-- The net triples produced by `rdflib.collection.Collection(graph, head,
values)`: one cell per element, `first` edges to the elements, `rest`
edges chaining the cells and ending in `nil`; additional cells are fresh
anonymous nodes allocated after the head.  Returns the triples and the
next allocation counter. -/
def listTriples (headN : Node) (ctr : Nat) : List Node → List Triple × Nat
  | [] => ([], ctr)
  | [v] => ([⟨headN, rdfFirst, v⟩, ⟨headN, rdfRest, rdfNilN⟩], ctr)
  | v :: w :: rest =>
    let nxt : Node := .bnode ctr
    let q := listTriples nxt (ctr + 1) (w :: rest)
    (⟨headN, rdfFirst, v⟩ :: ⟨headN, rdfRest, nxt⟩ :: q.1, q.2)

/-- `add_property_chain(property_name, chain_properties)`: a fresh head
node, the encoded chain, and one `propertyChainAxiom` edge. -/
def addPropertyChain (m : Manager) (propName : Str) (chainProps : List Str) : Manager :=
  let pu := resolveUri m propName
  let headN : Node := .bnode m.ctr
  let q := listTriples headN (m.ctr + 1) (chainProps.map (resolveUri m))
  { m with
    ctr := q.2
    graph := addT (q.1.foldl addT m.graph) ⟨pu, owlPropertyChainAxiom, headN⟩ }

/-- Modelled from the spec: the ordered-list decode used by every reader
(`list(Collection(self.graph, node))`, i.e. rdflib's `Graph.items`) is not
part of this repository.  Per the spec (section 4.4 and the MalformedList
error kind) decode follows `rest` links collecting `first` values, a
missing link merely ends the walk, and a structural error is produced on a
recursive `rest` reference — an error which call sites may or may not
swallow.  The fuel argument only bounds the walk; it exceeds the number of
distinct successor nodes, so it never expires before the cycle check. -/
def itemsGo (g : List Triple) : Nat → List Node → Node → Except Str (List Node)
  | 0, _, _ => .error (str "fuel")
  | fuel + 1, chain, cur =>
    let item := graphValue g cur rdfFirst
    match graphValue g cur rdfRest with
    | none =>
      match item with
      | some it => .ok [it]
      | none => .ok []
    | some nxt =>
      if nxt ∈ chain then .error (str "List contains a recursive rdf:rest reference")
      else
        match itemsGo g fuel (nxt :: chain) nxt with
        | .ok rest =>
          match item with
          | some it => .ok (it :: rest)
          | none => .ok rest
        | .error e => .error e

/-- Decode an ordered list from its head node (see `itemsGo`). -/
def decodeItems (g : List Triple) (headN : Node) : Except Str (List Node) :=
  itemsGo g (g.length + 2) [headN] headN

/-- A property chain record as assembled by `get_property_chains`. -/
structure ChainRec where
  property : Str
  chain : List Str
deriving DecidableEq, Repr

/-- The body of the `get_property_chains` loop: each `propertyChainAxiom`
triple with a named subject is decoded — with no exception handler, so a
decode error propagates out of the whole call. -/
def chainsGo (g : List Triple) : List Triple → Except Str (List ChainRec)
  | [] => .ok []
  | t :: ts =>
    match t.s with
    | .uri _ =>
      match decodeItems g t.o with
      | .error e => .error e
      | .ok ch =>
        (chainsGo g ts).map
          (fun rest => ⟨nodeLocalName t.s, (ch.filter isUriN).map nodeLocalName⟩ :: rest)
    | _ => chainsGo g ts

/-- `get_property_chains()`.  No sort is applied, and the list decode is not
wrapped in an exception handler (unlike its sibling readers). -/
def getPropertyChains (m : Manager) : Except Str (List ChainRec) :=
  chainsGo m.graph (m.graph.filter (fun t => decide (t.p = owlPropertyChainAxiom)))

/-- A class expression record as assembled by `get_class_expressions`. -/
structure ExprRec where
  cls : Str
  etype : Str
  members : List Str
deriving DecidableEq, Repr

/-- The `expression_types` list of `get_class_expressions`, in source order. -/
def exprTypes : List (Node × Str) := [
  (owlUnionOf, str "unionOf"), (owlIntersectionOf, str "intersectionOf"),
  (owlComplementOf, str "complementOf"), (owlOneOf, str "oneOf")]

/-- `get_class_expressions(class_name)`: for each expression predicate, each
named subject yields a record whose members come from a direct edge
(`complementOf`) or from the list decode — wrapped in `try/except: pass`,
so a decode error degrades to an empty member list, which drops the
record. -/
def getClassExpressions (m : Manager) (className : Option Str) : List ExprRec :=
  (exprTypes.map (fun q =>
    (m.graph.filter (fun t => decide (t.p = q.1))).filterMap (fun t =>
      match t.s with
      | .uri _ =>
        let sn := nodeLocalName t.s
        if (match className with
            | some cn => cn ≠ [] && sn ≠ cn
            | none => false) then none
        else
          let members : List Str :=
            if q.2 = str "complementOf" then
              if isUriN t.o then [nodeLocalName t.o] else []
            else
              match decodeItems m.graph t.o with
              | .ok ms => (ms.filter isUriN).map nodeLocalName
              | .error _ => []
          if members ≠ [] then some ⟨sn, q.2, members⟩ else none
      | _ => none))).flatten

/-! `set_base_uri` and its phases. -/

/-- The separator normalization of `set_base_uri`: append `#` when the new
URI ends in neither `#` nor `/`. -/
def normalizeBase (u : Str) : Str :=
  if endsWithC u '#' || endsWithC u '/' then u else u ++ ['#']

/-- The new ontology identifier derived inside `set_base_uri`:
`URIRef(new_base_uri.rstrip("#").rstrip("/"))`. -/
def newOntOf (newUri : Str) : Node :=
  .uri (rstripC (rstripC (normalizeBase newUri) '#') '/')

/-- Replace an old-base-prefixed named identifier's prefix with the new
base, keeping the local-name suffix; everything else is untouched. -/
def rebaseNode (oldB newB : Str) : Node → Node
  | .uri s => if oldB.isPrefixOf s then .uri (newB ++ s.drop oldB.length) else .uri s
  | n => n

/-- The per-triple rewrite of `set_base_uri`'s general pass: subject and
object together, the predicate untouched. -/
def rebaseTriple (oldB newB : Str) (t : Triple) : Triple :=
  ⟨rebaseNode oldB newB t.s, t.p, rebaseNode oldB newB t.o⟩

/-- Substitution of the old ontology identifier by the new one. -/
def migrateNode (a b n : Node) : Node := if n = a then b else n

/-- The combined effect of the two ontology-migration phases on one triple
(subject then object position). -/
def migrateTriple (a b : Node) (t : Triple) : Triple :=
  ⟨migrateNode a b t.s, t.p, migrateNode a b t.o⟩

/-- Phase 1 of `set_base_uri`: collect the triples with the old ontology
identifier as subject, then remove/re-add each with the new identifier. -/
def migrateSubjPhase (oldOnt newOnt : Node) (g : List Triple) : List Triple :=
  applyUpdates g ((g.filter (fun t => decide (t.s = oldOnt))).map
    (fun t => (t, { t with s := newOnt })))

/-- Phase 2 of `set_base_uri`: same for the object position, collected from
the phase-1 result. -/
def migrateObjPhase (oldOnt newOnt : Node) (g : List Triple) : List Triple :=
  applyUpdates g ((g.filter (fun t => decide (t.o = oldOnt))).map
    (fun t => (t, { t with o := newOnt })))

/-- The general pass of `set_base_uri`: when the base actually changed,
collect an update for every triple the rewrite moves, then apply. -/
def rebasePhase (oldB newB : Str) (g : List Triple) : List Triple :=
  if oldB = newB then g
  else applyUpdates g (g.filterMap (fun t =>
    if rebaseTriple oldB newB t = t then none else some (t, rebaseTriple oldB newB t)))

/-- `set_base_uri(new_base_uri)`: no-op on an empty argument; otherwise
normalize the separator, update the recorded base and ontology identifier,
migrate the ontology declaration (subject pass, then object pass), and run
the general prefix rewrite guarded by `old_base_uri != new_base_uri`. -/
def setBaseUri (m : Manager) (newUri : Str) : Manager :=
  if newUri = [] then m
  else
    let newBase := normalizeBase newUri
    let newOnt := newOntOf newUri
    { m with
      base_uri := newBase
      ontology_uri := newOnt
      graph := rebasePhase m.base_uri newBase
        (migrateObjPhase m.ontology_uri newOnt
          (migrateSubjPhase m.ontology_uri newOnt m.graph)) }

/-! Reasoning.  `apply_reasoning` delegates the closure itself to the
external `owlrl` package, which is not part of this repository; the
fixed-point procedure below is modelled from the spec (section 4.6):
repeatedly apply the profile's rules to the current triple set, adding
every derivable triple, until no rule produces a triple not already
present; the return value is the size delta. -/

/-- Add a batch of derived triples with set semantics. -/
def stepAll (g : List Triple) (ts : List Triple) : List Triple :=
  ts.foldl addT g

/-- Whether every currently derivable triple is already present. -/
def isClosedB (rules : List Triple → List Triple) (g : List Triple) : Bool :=
  (rules g).all (fun t => decide (t ∈ g))

/-- Modelled from the spec: the fixed-point loop of the deductive closure,
with a fuel bound standing in for the (finite) number of rounds the
`owlrl` loop can take; with enough fuel it runs until closed. -/
def closureFuel (rules : List Triple → List Triple) : Nat → List Triple → List Triple
  | 0, g => g
  | n + 1, g => if isClosedB rules g then g else closureFuel rules n (stepAll g (rules g))

/-- Dispatch on the profile name, mirroring the `if/elif` of
`apply_reasoning`; an unrecognized profile expands nothing. -/
def profileRules (rdfsR owlrlR owlrlExtR : List Triple → List Triple) (profile : Str) :
    List Triple → List Triple :=
  if profile = str "rdfs" then rdfsR
  else if profile = str "owl-rl" then owlrlR
  else if profile = str "owl-rl-ext" then owlrlExtR
  else fun _ => []

/-- Modelled from the spec: `apply_reasoning(profile)` expands the graph in
place and returns the triple-count delta (`len(self.graph) -
initial_count`). -/
def applyReasoning (rdfsR owlrlR owlrlExtR : List Triple → List Triple) (fuel : Nat)
    (profile : Str) (m : Manager) : Nat × Manager :=
  let rules := profileRules rdfsR owlrlR owlrlExtR profile
  let g := closureFuel rules fuel m.graph
  (g.length - m.graph.length, { m with graph := g })

/-- A node is outside the rebase scope: neither the old ontology identifier
nor a named identifier under the old base. -/
def nodeOutside (oldB : Str) (oldOnt : Node) (n : Node) : Prop :=
  n ≠ oldOnt ∧ ∀ s, n = Node.uri s → oldB.isPrefixOf s = false

/-! Concrete scenario inputs used by the claims. -/

/-- A graph holding the class `Person` and a triple in which `Person` occurs
both as subject and as object. -/
def c1m : Manager :=
  { graph := [⟨.uri (str "http://e#Person"), rdfType, owlClass⟩,
              ⟨.uri (str "http://e#Person"), .uri (str "http://e#rel"),
               .uri (str "http://e#Person")⟩]
    base_uri := str "http://e#", ontology_uri := .uri (str "http://e"), ctr := 0 }

/-- A fresh store containing the class `Person` and the data property
`hasAge`. -/
def c3m2 : Manager :=
  addDataProperty (addClass (initManager (str "http://e#")) (str "Person") none none none)
    (str "hasAge") none (some (str "integer")) none none false

/-- The `add_restriction` call of the restriction round-trip scenario. -/
def c3res : Manager × Except Str Node :=
  addRestriction c3m2 (str "Person") (str "hasAge") (str "exactCardinality") (RVal.n 1) none

/-- A graph holding entities of all three kinds, for rename-collision runs. -/
def c5w : Manager :=
  { graph := [⟨.uri (str "http://e#Person"), rdfType, owlClass⟩,
              ⟨.uri (str "http://e#knows"), rdfType, owlObjectProperty⟩,
              ⟨.uri (str "http://e#alice"), rdfType, owlNamedIndividual⟩]
    base_uri := str "http://e#", ontology_uri := .uri (str "http://e"), ctr := 0 }

/-- A graph whose property chain list has a recursive `rest` reference. -/
def c6m : Manager :=
  { graph := [⟨.uri (str "http://e#p"), owlPropertyChainAxiom, .bnode 0⟩,
              ⟨.bnode 0, rdfFirst, .uri (str "http://e#q")⟩,
              ⟨.bnode 0, rdfRest, .bnode 0⟩]
    base_uri := str "http://e#", ontology_uri := .uri (str "http://e"), ctr := 1 }

/-- A graph whose `unionOf` member list has a recursive `rest` reference. -/
def c6m2 : Manager :=
  { graph := [⟨.uri (str "http://e#c"), owlUnionOf, .bnode 0⟩,
              ⟨.bnode 0, rdfFirst, .uri (str "http://e#q")⟩,
              ⟨.bnode 0, rdfRest, .bnode 0⟩]
    base_uri := str "http://e#", ontology_uri := .uri (str "http://e"), ctr := 1 }

/-- Two restrictions added with property local names in descending order. -/
def c8m : Manager :=
  (addRestriction (addRestriction (initManager (str "http://e#"))
      (str "C") (str "b") (str "minCardinality") (RVal.n 1) none).1
    (str "D") (str "a") (str "minCardinality") (RVal.n 1) none).1

/-- A one-class store for the base-rebase witness. -/
def w2m : Manager := addClass (initManager (str "http://e#")) (str "P") none none none

/-- The derived triple used by the reasoning witness. -/
def w4t : Triple :=
  ⟨.uri (str "http://e#A"), rdfsSubClassOf, .uri (str "http://e#B")⟩

/-- The one-rule profile of the reasoning witness. -/
def w4rules : List Triple → List Triple := fun _ => [w4t]

/-! Membership lemmas for the store primitives. -/

theorem mem_addT_self (g : List Triple) (t : Triple) : t ∈ addT g t := by
  unfold addT
  split
  · assumption
  · simp

theorem mem_addT_of_mem {g : List Triple} {t : Triple} (u : Triple) (h : t ∈ g) :
    t ∈ addT g u := by
  unfold addT
  split
  · exact h
  · exact List.mem_append_left _ h

theorem mem_removeT {g : List Triple} {t u : Triple} (h : t ∈ g) (hne : t ≠ u) :
    t ∈ removeT g u := by
  unfold removeT
  exact List.mem_filter.mpr ⟨h, by simpa using hne⟩

theorem addT_of_not_mem {g : List Triple} {t : Triple} (h : t ∉ g) : addT g t = g ++ [t] := by
  unfold addT
  exact if_neg h

theorem filter_addT_of_neg {p : Triple → Bool} {t : Triple} (g : List Triple)
    (hp : p t = false) : (addT g t).filter p = g.filter p := by
  unfold addT
  split
  · rfl
  · rw [List.filter_append]
    simp [List.filter, hp]

theorem removeSP_addT {g : List Triple} {t : Triple} {sn pn : Node}
    (hs : t.s = sn) (hp : t.p = pn) : removeSP (addT g t) sn pn = removeSP g sn pn := by
  unfold removeSP
  apply filter_addT_of_neg
  simp [hs, hp]

/-- A triple never named as the old side of an update (except identically)
survives the collect-then-apply loop. -/
theorem mem_applyUpdates_stable :
    ∀ (ups : List (Triple × Triple)) (g : List Triple) (t : Triple),
      t ∈ g → (∀ q ∈ ups, q.1 ≠ t ∨ q.2 = t) → t ∈ applyUpdates g ups := by
  intro ups
  induction ups with
  | nil => intro g t ht _; exact ht
  | cons q rest ih =>
    intro g t ht hcond
    have hstep : t ∈ addT (removeT g q.1) q.2 := by
      rcases hcond q (List.mem_cons_self q rest) with h1 | h2
      · exact mem_addT_of_mem _ (mem_removeT ht (Ne.symm h1))
      · exact h2 ▸ mem_addT_self _ _
    exact ih _ t hstep (fun p hp => hcond p (List.mem_cons_of_mem _ hp))

/-- The new side of an update ends up in the result, provided no update
removes it again (except identically). -/
theorem mem_applyUpdates_target :
    ∀ (ups : List (Triple × Triple)) (g : List Triple) (a b : Triple),
      (a, b) ∈ ups → (∀ q ∈ ups, q.1 ≠ b ∨ q.2 = b) → b ∈ applyUpdates g ups := by
  intro ups
  induction ups with
  | nil => intro g a b h _; exact absurd h (List.not_mem_nil _)
  | cons q rest ih =>
    intro g a b hmem hcond
    rcases List.mem_cons.mp hmem with heq | htail
    · have hq2 : q.2 = b := by rw [← heq]
      have hb : b ∈ addT (removeT g q.1) q.2 := hq2 ▸ mem_addT_self _ _
      exact mem_applyUpdates_stable rest _ b hb (fun p hp => hcond p (List.mem_cons_of_mem _ hp))
    · exact ih _ a b htail (fun p hp => hcond p (List.mem_cons_of_mem _ hp))

/-! Counting and fixed-point lemmas for the reasoning closure. -/

theorem countP_if_le {α : Type} (p q : α → Bool) (x : α) (h : q x = true → p x = true) :
    (if q x then 1 else 0) ≤ (if p x then 1 else 0) := by
  cases hq : q x
  · simp
  · simp [h hq]

theorem countP_le_countP {α : Type} (l : List α) (p q : α → Bool)
    (h : ∀ a ∈ l, q a = true → p a = true) : l.countP q ≤ l.countP p := by
  induction l with
  | nil => simp
  | cons x xs ih =>
    rw [List.countP_cons, List.countP_cons]
    exact Nat.add_le_add (ih (fun a ha hq => h a (List.mem_cons_of_mem _ ha) hq))
      (countP_if_le p q x (h x (List.mem_cons_self x xs)))

theorem countP_lt_countP {α : Type} (l : List α) (p q : α → Bool)
    (h : ∀ a ∈ l, q a = true → p a = true) (b : α) (hb : b ∈ l)
    (hpb : p b = true) (hqb : q b = false) : l.countP q < l.countP p := by
  induction l with
  | nil => cases hb
  | cons x xs ih =>
    rw [List.countP_cons, List.countP_cons]
    rcases List.mem_cons.mp hb with rfl | hbx
    · have hle := countP_le_countP xs p q (fun a ha hq => h a (List.mem_cons_of_mem _ ha) hq)
      simpa [hqb, hpb] using Nat.lt_succ_of_le hle
    · exact Nat.add_lt_add_of_lt_of_le
        (ih (fun a ha hq => h a (List.mem_cons_of_mem _ ha) hq) hbx)
        (countP_if_le p q x (h x (List.mem_cons_self x xs)))

theorem mem_stepAll_left {g : List Triple} {t : Triple} (ts : List Triple) (h : t ∈ g) :
    t ∈ stepAll g ts := by
  induction ts generalizing g with
  | nil => exact h
  | cons u us ih => exact ih (mem_addT_of_mem u h)

theorem mem_stepAll_right {ts : List Triple} {t : Triple} (g : List Triple) (h : t ∈ ts) :
    t ∈ stepAll g ts := by
  induction ts generalizing g with
  | nil => cases h
  | cons u us ih =>
    rcases List.mem_cons.mp h with rfl | hus
    · exact mem_stepAll_left us (mem_addT_self g t)
    · exact ih _ hus

theorem isClosedB_iff {rules : List Triple → List Triple} {g : List Triple} :
    isClosedB rules g = true ↔ ∀ t ∈ rules g, t ∈ g := by
  unfold isClosedB
  rw [List.all_eq_true]
  simp

theorem closureFuel_of_closed (rules : List Triple → List Triple) (n : Nat) {g : List Triple}
    (h : isClosedB rules g = true) : closureFuel rules n g = g := by
  cases n
  · rfl
  · unfold closureFuel
    rw [if_pos h]

/-- With enough fuel — at least the number of universe triples still missing
from the graph — the closure loop reaches a state in which no rule derives
a new triple. -/
theorem closureFuel_closed (rules : List Triple → List Triple) (U : List Triple)
    (hU : ∀ (g : List Triple) (t : Triple), t ∈ rules g → t ∈ U) :
    ∀ (n : Nat) (g : List Triple), U.countP (fun t => decide (t ∉ g)) ≤ n →
      isClosedB rules (closureFuel rules n g) = true := by
  intro n
  induction n with
  | zero =>
    intro g hle
    have hall := List.countP_eq_zero.mp (Nat.le_zero.mp hle)
    show isClosedB rules g = true
    rw [isClosedB_iff]
    intro t htr
    have := hall t (hU g t htr)
    simpa using this
  | succ n ih =>
    intro g hle
    simp only [closureFuel]
    by_cases hc : isClosedB rules g = true
    · rw [if_pos hc]
      exact hc
    · rw [if_neg hc]
      apply ih
      have hex : ∃ t, t ∈ rules g ∧ t ∉ g := by
        by_contra hno
        push_neg at hno
        exact hc (isClosedB_iff.mpr hno)
      rcases hex with ⟨t0, ht0r, ht0g⟩
      have hlt : U.countP (fun t => decide (t ∉ stepAll g (rules g)))
          < U.countP (fun t => decide (t ∉ g)) := by
        apply countP_lt_countP U _ _ ?_ t0 (hU g t0 ht0r) (by simpa using ht0g)
          (by simp [mem_stepAll_right g ht0r])
        intro a _ ha
        simp only [decide_eq_true_eq] at ha ⊢
        intro hag
        exact ha (mem_stepAll_left (rules g) hag)
      exact Nat.lt_succ_iff.mp (Nat.lt_of_lt_of_le hlt hle)

/-! Ordinal string comparison and the stable sort. -/

theorem strLeB_total : ∀ a b : Str, strLeB a b = true ∨ strLeB b a = true := by
  intro a
  induction a with
  | nil => intro b; left; rfl
  | cons x xs ih =>
    intro b
    cases b with
    | nil => right; rfl
    | cons y ys =>
      by_cases hxy : x = y
      · subst hxy
        simp only [strLeB, if_pos rfl]
        exact ih ys
      · rcases lt_or_gt_of_ne hxy with h | h
        · left
          simp [strLeB, hxy, h]
        · right
          have hyx : y ≠ x := fun he => hxy he.symm
          simp [strLeB, hyx, h]

theorem strLeB_trans :
    ∀ a b c : Str, strLeB a b = true → strLeB b c = true → strLeB a c = true := by
  intro a
  induction a with
  | nil => intro b c _ _; rfl
  | cons x xs ih =>
    intro b c hab hbc
    cases b with
    | nil => simp [strLeB] at hab
    | cons y ys =>
      cases c with
      | nil => simp [strLeB] at hbc
      | cons z zs =>
        by_cases hxy : x = y
        · subst hxy
          by_cases hyz : x = z
          · subst hyz
            simp only [strLeB, if_pos rfl] at hab hbc ⊢
            exact ih ys zs hab hbc
          · simp only [strLeB, if_pos rfl, if_neg hyz] at hab hbc ⊢
            exact hbc
        · by_cases hyz : y = z
          · subst hyz
            simp only [strLeB, if_neg hxy] at hab ⊢
            exact hab
          · simp only [strLeB, if_neg hxy, if_neg hyz, decide_eq_true_eq] at hab hbc
            have hxz : x < z := lt_trans hab hbc
            have hne : x ≠ z := ne_of_lt hxz
            simp [strLeB, hne, hxz]

theorem mem_insertSorted {α : Type} {le : α → α → Bool} {x a : α} :
    ∀ l : List α, a ∈ insertSorted le x l ↔ a = x ∨ a ∈ l := by
  intro l
  induction l with
  | nil => simp [insertSorted]
  | cons y ys ih =>
    unfold insertSorted
    split
    · simp [List.mem_cons]
    · simp [List.mem_cons, ih]
      tauto

theorem pairwise_insertSorted {α : Type} (le : α → α → Bool)
    (htot : ∀ a b, le a b = true ∨ le b a = true)
    (htr : ∀ a b c, le a b = true → le b c = true → le a c = true) (x : α) :
    ∀ l : List α, l.Pairwise (fun a b => le a b = true) →
      (insertSorted le x l).Pairwise (fun a b => le a b = true) := by
  intro l
  induction l with
  | nil => intro _; simp [insertSorted]
  | cons y ys ih =>
    intro hp
    rcases List.pairwise_cons.mp hp with ⟨hy, hys⟩
    unfold insertSorted
    split
    · rename_i hxy
      refine List.pairwise_cons.mpr ⟨?_, hp⟩
      intro a ha
      rcases List.mem_cons.mp ha with rfl | has
      · exact hxy
      · exact htr x y a hxy (hy a has)
    · rename_i hxy
      have hyx : le y x = true := by
        rcases htot x y with h | h
        · exact absurd h hxy
        · exact h
      refine List.pairwise_cons.mpr ⟨?_, ih hys⟩
      intro a ha
      rcases (mem_insertSorted ys).mp ha with rfl | has
      · exact hyx
      · exact hy a has

theorem pairwise_sortBy {α : Type} (le : α → α → Bool)
    (htot : ∀ a b, le a b = true ∨ le b a = true)
    (htr : ∀ a b c, le a b = true → le b c = true → le a c = true) :
    ∀ l : List α, (sortBy le l).Pairwise (fun a b => le a b = true) := by
  intro l
  induction l with
  | nil => simp [sortBy]
  | cons x xs ih => exact pairwise_insertSorted le htot htr x _ ih

/-! Rewrite lemmas for the base-URI phases. -/

theorem isPrefixOf_append_drop :
    ∀ p s : Str, p.isPrefixOf s = true → p ++ s.drop p.length = s := by
  intro p
  induction p with
  | nil => intro s _; simp
  | cons a as ih =>
    intro s h
    cases s with
    | nil => simp [List.isPrefixOf] at h
    | cons b bs =>
      simp only [List.isPrefixOf, Bool.and_eq_true, beq_iff_eq] at h
      rcases h with ⟨rfl, h2⟩
      simp only [List.length_cons, List.drop_succ_cons, List.cons_append, List.cons.injEq,
        true_and]
      exact ih bs h2

theorem rebaseNode_self (b : Str) (n : Node) : rebaseNode b b n = n := by
  cases n with
  | uri s =>
    simp only [rebaseNode]
    split
    · rename_i h
      rw [isPrefixOf_append_drop b s h]
    · rfl
  | bnode k => rfl
  | lit v l d => rfl

theorem rebaseTriple_self (b : Str) (t : Triple) : rebaseTriple b b t = t := by
  unfold rebaseTriple
  rw [rebaseNode_self, rebaseNode_self]

theorem migrateNode_of_ne {a b n : Node} (h : n ≠ a) : migrateNode a b n = n := if_neg h

theorem rebaseNode_of_out (oldB newB : Str) {n : Node}
    (h : ∀ s, n = Node.uri s → oldB.isPrefixOf s = false) : rebaseNode oldB newB n = n := by
  cases n with
  | uri s =>
    simp only [rebaseNode]
    rw [h s rfl]
    simp
  | bnode k => rfl
  | lit v l d => rfl

/-- Phase 1 sends each graph triple to its subject-migrated form. -/
theorem mem_migrateSubjPhase (oldOnt newOnt : Node) (g : List Triple) (t : Triple)
    (ht : t ∈ g) :
    Triple.mk (migrateNode oldOnt newOnt t.s) t.p t.o ∈ migrateSubjPhase oldOnt newOnt g := by
  by_cases hs : t.s = oldOnt
  · have hgoal : Triple.mk (migrateNode oldOnt newOnt t.s) t.p t.o = { t with s := newOnt } := by
      simp [migrateNode, hs]
    rw [hgoal]
    apply mem_applyUpdates_target _ g t
    · exact List.mem_map.mpr ⟨t, List.mem_filter.mpr ⟨ht, by simp [hs]⟩, rfl⟩
    · intro q hq
      rcases List.mem_map.mp hq with ⟨u, hu, rfl⟩
      by_cases he : u = { t with s := newOnt }
      · right
        rw [he]
      · left
        exact he
  · have hgoal : Triple.mk (migrateNode oldOnt newOnt t.s) t.p t.o = t := by
      simp [migrateNode, hs]
    rw [hgoal]
    apply mem_applyUpdates_stable _ g t ht
    intro q hq
    rcases List.mem_map.mp hq with ⟨u, hu, rfl⟩
    left
    intro he
    have he2 : u = t := he
    have hu2 := (List.mem_filter.mp hu).2
    rw [he2] at hu2
    simp at hu2
    exact hs hu2

/-- Phase 2 sends each triple of its input to its object-migrated form. -/
theorem mem_migrateObjPhase (oldOnt newOnt : Node) (g : List Triple) (t : Triple)
    (ht : t ∈ g) :
    Triple.mk t.s t.p (migrateNode oldOnt newOnt t.o) ∈ migrateObjPhase oldOnt newOnt g := by
  by_cases hs : t.o = oldOnt
  · have hgoal : Triple.mk t.s t.p (migrateNode oldOnt newOnt t.o) = { t with o := newOnt } := by
      simp [migrateNode, hs]
    rw [hgoal]
    apply mem_applyUpdates_target _ g t
    · exact List.mem_map.mpr ⟨t, List.mem_filter.mpr ⟨ht, by simp [hs]⟩, rfl⟩
    · intro q hq
      rcases List.mem_map.mp hq with ⟨u, hu, rfl⟩
      by_cases he : u = { t with o := newOnt }
      · right
        rw [he]
      · left
        exact he
  · have hgoal : Triple.mk t.s t.p (migrateNode oldOnt newOnt t.o) = t := by
      simp [migrateNode, hs]
    rw [hgoal]
    apply mem_applyUpdates_stable _ g t ht
    intro q hq
    rcases List.mem_map.mp hq with ⟨u, hu, rfl⟩
    left
    intro he
    have he2 : u = t := he
    have hu2 := (List.mem_filter.mp hu).2
    rw [he2] at hu2
    simp at hu2
    exact hs hu2

/-- The general rewrite pass contains the rebased image of each triple of
its input, provided rebasing that image moves nothing further. -/
theorem mem_rebasePhase (oldB newB : Str) (g : List Triple) (t : Triple) (ht : t ∈ g)
    (hsafe : rebaseTriple oldB newB (rebaseTriple oldB newB t) = rebaseTriple oldB newB t) :
    rebaseTriple oldB newB t ∈ rebasePhase oldB newB g := by
  unfold rebasePhase
  split
  · rename_i heq
    subst heq
    rw [rebaseTriple_self]
    exact ht
  · by_cases hch : rebaseTriple oldB newB t = t
    · rw [hch]
      apply mem_applyUpdates_stable _ g t ht
      intro q hq
      rcases List.mem_filterMap.mp hq with ⟨u, hu, hqe⟩
      by_cases hru : rebaseTriple oldB newB u = u
      · rw [if_pos hru] at hqe
        cases hqe
      · rw [if_neg hru] at hqe
        injection hqe with hqe2
        left
        rw [← hqe2]
        intro he
        have he2 : u = t := he
        rw [he2] at hru
        exact hru hch
    · apply mem_applyUpdates_target _ g t (rebaseTriple oldB newB t)
      · exact List.mem_filterMap.mpr ⟨t, ht, by rw [if_neg hch]⟩
      · intro q hq
        rcases List.mem_filterMap.mp hq with ⟨u, hu, hqe⟩
        by_cases hru : rebaseTriple oldB newB u = u
        · rw [if_pos hru] at hqe
          cases hqe
        · rw [if_neg hru] at hqe
          injection hqe with hqe2
          by_cases h1 : u = rebaseTriple oldB newB t
          · right
            rw [← hqe2, h1, hsafe]
          · left
            rw [← hqe2]
            exact h1

/-- The record produced by a non-empty `set_base_uri` argument. -/
theorem setBaseUri_eq (m : Manager) (newUri : Str) (h0 : newUri ≠ []) :
    setBaseUri m newUri = { m with
      base_uri := normalizeBase newUri
      ontology_uri := newOntOf newUri
      graph := rebasePhase m.base_uri (normalizeBase newUri)
        (migrateObjPhase m.ontology_uri (newOntOf newUri)
          (migrateSubjPhase m.ontology_uri (newOntOf newUri) m.graph)) } := by
  unfold setBaseUri
  rw [if_neg h0]

/-! The claims. -/

/-- Claim C1 (code bug): the claim says that after a successful
`rename_X(A, B)` no triple still references A's identifier, even when A
occurred in more than one position of the same triple.  The code collects
the subject updates and object updates separately against the original
graph, so a triple (A, p, A) is split: the run below returns success yet
leaves both (B, p, A) and (A, p, B) in the graph — each still referencing
A — and the fully renamed triple (B, p, B) is absent, contradicting the
function's own "updating all references" contract. -/
theorem claim1_rename_multi_position_bug :
    (renameClass c1m (str "Person") (str "Human")).1 = true ∧
    Triple.mk (Node.uri (str "http://e#Human")) (Node.uri (str "http://e#rel"))
        (Node.uri (str "http://e#Person"))
      ∈ (renameClass c1m (str "Person") (str "Human")).2.graph ∧
    Triple.mk (Node.uri (str "http://e#Person")) (Node.uri (str "http://e#rel"))
        (Node.uri (str "http://e#Human"))
      ∈ (renameClass c1m (str "Person") (str "Human")).2.graph ∧
    Triple.mk (Node.uri (str "http://e#Human")) (Node.uri (str "http://e#rel"))
        (Node.uri (str "http://e#Human"))
      ∉ (renameClass c1m (str "Person") (str "Human")).2.graph := by
  decide

/-- Claim C2 counterexample: `set_base_uri` migrates the ontology
declaration first and only then runs the general prefix rewrite, so when
the migrated ontology identifier itself falls under the old base (here
old base `http://a#`, new base `http://a#s#`, migrated identifier
`http://a#s`), the general pass rewrites the declaration a second time and
the ontology declaration is not at the recorded ontology identifier
afterwards — against the claim that the declaration is migrated for every
non-empty new base URI. -/
theorem claim2_base_rebase_counterexample :
    Triple.mk (Node.uri (str "http://a")) rdfType owlOntology
      ∈ (initManager (str "http://a#")).graph ∧
    (setBaseUri (initManager (str "http://a#")) (str "http://a#s")).ontology_uri
      = Node.uri (str "http://a#s") ∧
    Triple.mk (Node.uri (str "http://a#s")) rdfType owlOntology
      ∉ (setBaseUri (initManager (str "http://a#")) (str "http://a#s")).graph := by
  decide

/-- Claim C2 (amended): for every non-empty new base URI such that the
rewrite is stable on the graph — rebasing an already migrated-and-rebased
triple moves nothing further, which fails only when the new namespace
overlaps the old base as in the counterexample — `set_base_uri` records
the separator-normalized base and the new ontology identifier, and the
resulting graph contains, for every original triple, its image under
ontology-identifier migration followed by the old-base-to-new-base prefix
rewrite of subject and object (same local-name suffix); in particular a
triple whose subject and object are outside the old base and distinct from
the ontology identifier is untouched. -/
theorem claim2_base_rebase_amended (m : Manager) (newUri : Str) (h0 : newUri ≠ [])
    (hsafe : ∀ t ∈ m.graph,
      rebaseTriple m.base_uri (normalizeBase newUri)
          (rebaseTriple m.base_uri (normalizeBase newUri)
            (migrateTriple m.ontology_uri (newOntOf newUri) t))
        = rebaseTriple m.base_uri (normalizeBase newUri)
            (migrateTriple m.ontology_uri (newOntOf newUri) t)) :
    (setBaseUri m newUri).base_uri = normalizeBase newUri ∧
    (setBaseUri m newUri).ontology_uri = newOntOf newUri ∧
    ∀ t ∈ m.graph,
      rebaseTriple m.base_uri (normalizeBase newUri)
          (migrateTriple m.ontology_uri (newOntOf newUri) t) ∈ (setBaseUri m newUri).graph ∧
      (nodeOutside m.base_uri m.ontology_uri t.s ∧ nodeOutside m.base_uri m.ontology_uri t.o →
        t ∈ (setBaseUri m newUri).graph) := by
  rw [setBaseUri_eq m newUri h0]
  refine ⟨rfl, rfl, ?_⟩
  intro t ht
  have h1 := mem_migrateSubjPhase m.ontology_uri (newOntOf newUri) m.graph t ht
  have h2 := mem_migrateObjPhase m.ontology_uri (newOntOf newUri) _ _ h1
  have hmain : rebaseTriple m.base_uri (normalizeBase newUri)
      (migrateTriple m.ontology_uri (newOntOf newUri) t)
      ∈ rebasePhase m.base_uri (normalizeBase newUri)
        (migrateObjPhase m.ontology_uri (newOntOf newUri)
          (migrateSubjPhase m.ontology_uri (newOntOf newUri) m.graph)) :=
    mem_rebasePhase m.base_uri (normalizeBase newUri) _ _ h2 (hsafe t ht)
  constructor
  · exact hmain
  · rintro ⟨hos, hoo⟩
    have hmt : migrateTriple m.ontology_uri (newOntOf newUri) t = t := by
      unfold migrateTriple
      rw [migrateNode_of_ne hos.1, migrateNode_of_ne hoo.1]
    have hrt : rebaseTriple m.base_uri (normalizeBase newUri) t = t := by
      unfold rebaseTriple
      rw [rebaseNode_of_out _ _ hos.2, rebaseNode_of_out _ _ hoo.2]
    rw [hmt, hrt] at hmain
    exact hmain

/-- Claim C2 amended, witness: rebasing `http://e#` to `http://f/` on a
one-class store sends the class declaration of `http://e#P` to
`http://f/P`. -/
theorem claim2_base_rebase_amended_witness :
    rebaseTriple (str "http://e#") (normalizeBase (str "http://f/"))
        (migrateTriple (Node.uri (str "http://e")) (newOntOf (str "http://f/"))
          ⟨Node.uri (str "http://e#P"), rdfType, owlClass⟩)
      ∈ (setBaseUri w2m (str "http://f/")).graph := by
  have h := claim2_base_rebase_amended w2m (str "http://f/") (by decide) (by decide)
  exact (h.2.2 ⟨Node.uri (str "http://e#P"), rdfType, owlClass⟩ (by decide)).1

/-- Claim C3: on a fresh store with class `Person` and property `hasAge`,
`add_restriction(Person, hasAge, exactCardinality, 1)` followed by
`get_restrictions(Person)` yields exactly one record with type
`exactCardinality`, property `hasAge`, value `"1"` and applied-to
`[Person]`, and `delete_restriction(Person, hasAge, exactCardinality)`
then yields zero records. -/
theorem claim3_restriction_roundtrip :
    c3res.2 = Except.ok (Node.bnode 0) ∧
    getRestrictions c3res.1 (some (str "Person")) =
      [{ property := str "hasAge", rtype := some (str "exactCardinality"),
         value := some (str "1"), on_class := none, applied_to := [str "Person"] }] ∧
    (deleteRestriction c3res.1 (str "Person") (str "hasAge") (str "exactCardinality")).1
      = true ∧
    getRestrictions (deleteRestriction c3res.1 (str "Person") (str "hasAge")
        (str "exactCardinality")).2 (some (str "Person")) = [] := by
  decide

/-- Claim C4: for every profile and every rule reading of the three
profiles whose derivable triples stay inside a finite universe `U`, and
fuel at least the number of universe triples missing from the graph,
running `apply_reasoning` twice returns 0 on the second call: the first
run reaches the fixed point and the second adds no triple. -/
theorem claim4_reasoning_second_run_zero
    (rdfsR owlrlR owlrlExtR : List Triple → List Triple) (U : List Triple)
    (fuel : Nat) (profile : Str) (m : Manager)
    (h1 : ∀ (g : List Triple) (t : Triple), t ∈ rdfsR g → t ∈ U)
    (h2 : ∀ (g : List Triple) (t : Triple), t ∈ owlrlR g → t ∈ U)
    (h3 : ∀ (g : List Triple) (t : Triple), t ∈ owlrlExtR g → t ∈ U)
    (hfuel : U.countP (fun t => decide (t ∉ m.graph)) ≤ fuel) :
    (applyReasoning rdfsR owlrlR owlrlExtR fuel profile
        (applyReasoning rdfsR owlrlR owlrlExtR fuel profile m).2).1 = 0 := by
  have hU : ∀ (g : List Triple) (t : Triple),
      t ∈ profileRules rdfsR owlrlR owlrlExtR profile g → t ∈ U := by
    intro g t
    unfold profileRules
    split_ifs
    · exact h1 g t
    · exact h2 g t
    · exact h3 g t
    · intro hmem
      exact absurd hmem (List.not_mem_nil t)
  have hclosed := closureFuel_closed (profileRules rdfsR owlrlR owlrlExtR profile) U hU
    fuel m.graph hfuel
  show (closureFuel (profileRules rdfsR owlrlR owlrlExtR profile) fuel
        (closureFuel (profileRules rdfsR owlrlR owlrlExtR profile) fuel m.graph)).length
      - (closureFuel (profileRules rdfsR owlrlR owlrlExtR profile) fuel m.graph).length = 0
  rw [closureFuel_of_closed _ fuel hclosed]
  exact Nat.sub_self _

/-- Claim C4 witness: a one-rule `rdfs` profile on a fresh store — the
first run adds the derived triple, the second returns 0. -/
theorem claim4_reasoning_second_run_zero_witness :
    (applyReasoning w4rules w4rules w4rules 1 (str "rdfs")
        (applyReasoning w4rules w4rules w4rules 1 (str "rdfs")
          (initManager (str "http://e#"))).2).1 = 0 :=
  claim4_reasoning_second_run_zero w4rules w4rules w4rules [w4t] 1 (str "rdfs")
    (initManager (str "http://e#"))
    (fun _ _ ht => ht) (fun _ _ ht => ht) (fun _ _ ht => ht) (by decide)

/-- Claim C5 counterexample: with the class `Person` present — so an entity
of the same kind exists at the identifier resolved from the new name —
`rename_class("Person", "Person")` returns true, not false, because the
equal-name short circuit runs before the collision check. -/
theorem claim5_rename_collision_counterexample :
    Triple.mk (resolveUri c5w (str "Person")) rdfType owlClass ∈ c5w.graph ∧
    renameClass c5w (str "Person") (str "Person") = (true, c5w) := by
  decide

/-- Claim C5 (amended): for every entity kind, whenever the old and new
names differ and an entity of the same kind already exists at the
identifier resolved from the new name, `rename_X` returns false and
performs no mutation; with equal names the call returns true and performs
no mutation. -/
theorem claim5_rename_collision_amended (m : Manager) (o n : Str) (hne : o ≠ n) :
    (Triple.mk (resolveUri m n) rdfType owlClass ∈ m.graph →
      renameClass m o n = (false, m)) ∧
    ((Triple.mk (resolveUri m n) rdfType owlObjectProperty ∈ m.graph ∨
      Triple.mk (resolveUri m n) rdfType owlDatatypeProperty ∈ m.graph) →
      renameProperty m o n = (false, m)) ∧
    (Triple.mk (resolveUri m n) rdfType owlNamedIndividual ∈ m.graph →
      renameIndividual m o n = (false, m)) := by
  refine ⟨fun h => ?_, fun h => ?_, fun h => ?_⟩
  · simp [renameClass, hne, h]
  · simp [renameProperty, hne, h]
  · simp [renameIndividual, hne, h]

/-- Claim C5 amended, witness: the refusals on a store holding a class, an
object property and a named individual. -/
theorem claim5_rename_collision_amended_witness :
    renameClass c5w (str "x") (str "Person") = (false, c5w) ∧
    renameProperty c5w (str "x") (str "knows") = (false, c5w) ∧
    renameIndividual c5w (str "x") (str "alice") = (false, c5w) :=
  ⟨(claim5_rename_collision_amended c5w (str "x") (str "Person") (by decide)).1 (by decide),
   (claim5_rename_collision_amended c5w (str "x") (str "knows") (by decide)).2.1
     (Or.inl (by decide)),
   (claim5_rename_collision_amended c5w (str "x") (str "alice") (by decide)).2.2 (by decide)⟩

/-- Claim C6 (code bug): the claim says every `get_*` reader is total and a
malformed ordered-list chain degrades to a partial or empty result.  Every
sibling reader wraps the list decode in `try/except: pass`, but
`get_property_chains` does not, so on a graph whose chain has a recursive
`rest` reference the decoder's structural error propagates out of
`get_property_chains` — while `get_class_expressions` on the analogous
malformed input degrades to an empty result as the claim describes. -/
theorem claim6_property_chains_error_on_cycle :
    getPropertyChains c6m
      = Except.error (str "List contains a recursive rdf:rest reference") ∧
    getClassExpressions c6m2 none = [] := by
  decide

/-- Claim C7 counterexample: `add_annotation` resolves `seeAlso` through its
15-entry table to `rdfs:seeAlso`, but `delete_annotation`'s table has only
6 entries, so the name falls back to the base namespace and the added
triple survives the delete. -/
theorem claim7_annot_delete_counterexample :
    Triple.mk (Node.uri (str "http://e#Person")) rdfsSeeAlso (Node.lit (str "x") none none)
      ∈ (deleteAnnot
          (addAnnot (initManager (str "http://e#")) (str "Person") (str "seeAlso")
            (str "x") none)
          (str "Person") (str "seeAlso") none).graph := by
  decide

/-- Claim C7 (amended): for the six short names present in
`delete_annotation`'s table (label, comment, prefLabel, altLabel,
definition, note) — a strict subset of `add_annotation`'s 15-entry table —
both calls resolve the name to the same predicate identifier, and
`add_annotation` followed by `delete_annotation` (no value) removes the
added triple together with every other (subject, predicate) triple; for
the remaining nine names `delete_annotation` resolves the name against the
base namespace instead and the added triple survives, as in the
counterexample. -/
theorem claim7_annot_shared_table_amended (m : Manager) (subject v : Str)
    (lang : Option Str) (name : Str) (hname : name ∈ annotPredsDel.map Prod.fst) :
    lookupStr annotPreds name = lookupStr annotPredsDel name ∧
    (deleteAnnot (addAnnot m subject name v lang) subject name none).graph
      = removeSP m.graph (resolveUri m subject)
          ((lookupStr annotPredsDel name).getD (resolveUri m name)) := by
  have hname2 : name = str "label" ∨ name = str "comment" ∨ name = str "prefLabel" ∨
      name = str "altLabel" ∨ name = str "definition" ∨ name = str "note" := by
    simpa [annotPredsDel] using hname
  rcases hname2 with rfl | rfl | rfl | rfl | rfl | rfl <;>
    exact ⟨by decide, removeSP_addT rfl rfl⟩

/-- Claim C7 amended, witness: the label round trip on a fresh store. -/
theorem claim7_annot_shared_table_amended_witness :
    (deleteAnnot
        (addAnnot (initManager (str "http://e#")) (str "Person") (str "label")
          (str "x") none)
        (str "Person") (str "label") none).graph
      = removeSP (initManager (str "http://e#")).graph
          (resolveUri (initManager (str "http://e#")) (str "Person")) rdfsLabel :=
  (claim7_annot_shared_table_amended (initManager (str "http://e#")) (str "Person")
    (str "x") none (str "label") (by decide)).2

/-- Claim C8 counterexample: `get_restrictions` applies no sort — two
restrictions whose property local names arrive in descending order are
returned in store order `[b, a]`, not sorted ascending by local name. -/
theorem claim8_get_restrictions_unsorted_counterexample :
    (getRestrictions c8m none).map RestRec.property = [str "b", str "a"] ∧
    ¬ (getRestrictions c8m none).Pairwise
        (fun a b => strLeB a.property b.property = true) := by
  decide

/-- Claim C8 (amended): the entity read models sort — `get_classes` returns
its records sorted ascending by the raw local name under case-sensitive
ordinal comparison (as do the other entity getters, which share the same
`sorted(key=name)` pattern) — but `get_restrictions`,
`get_property_chains` and `get_class_relations` return records in store
iteration order with no sort, as in the counterexample. -/
theorem claim8_get_classes_sorted_amended (m : Manager) :
    (getClasses m).Pairwise (fun a b => strLeB a.name b.name = true) := by
  apply pairwise_sortBy
  · intro a b
    exact strLeB_total a.name b.name
  · intro a b c
    exact strLeB_trans a.name b.name c.name

/-- Claim C9: with a kind outside the nine-entry restriction table,
`add_restriction` errors only after adding the fresh anonymous node's type
triple and its `onProperty` triple, so (when those fresh triples were not
already present) the resulting graph is exactly the prior graph plus those
two triples — the store is not left unchanged on this error. -/
theorem claim9_add_restriction_error_after_two_triples (m : Manager)
    (c p k : Str) (v : RVal) (oc : Option Str)
    (hk : lookupStr restrictionTypes k = none)
    (h1 : Triple.mk (Node.bnode m.ctr) rdfType owlRestriction ∉ m.graph)
    (h2 : Triple.mk (Node.bnode m.ctr) owlOnProperty (resolveUri m p) ∉ m.graph) :
    (addRestriction m c p k v oc).2
      = Except.error (str "Unknown restriction type: " ++ k) ∧
    (addRestriction m c p k v oc).1.graph
      = m.graph ++ [⟨Node.bnode m.ctr, rdfType, owlRestriction⟩,
                    ⟨Node.bnode m.ctr, owlOnProperty, resolveUri m p⟩] := by
  have hres : addRestriction m c p k v oc
      = ({ m with
            ctr := m.ctr + 1
            graph := addT (addT m.graph ⟨Node.bnode m.ctr, rdfType, owlRestriction⟩)
              ⟨Node.bnode m.ctr, owlOnProperty, resolveUri m p⟩ },
         Except.error (str "Unknown restriction type: " ++ k)) := by
    unfold addRestriction
    rw [hk]
  have hne : Triple.mk (Node.bnode m.ctr) owlOnProperty (resolveUri m p)
      ≠ Triple.mk (Node.bnode m.ctr) rdfType owlRestriction := by
    intro he
    have hp : owlOnProperty = rdfType := congrArg Triple.p he
    exact absurd hp (by decide)
  have h2b : Triple.mk (Node.bnode m.ctr) owlOnProperty (resolveUri m p)
      ∉ m.graph ++ [⟨Node.bnode m.ctr, rdfType, owlRestriction⟩] := by
    intro hmem
    rcases List.mem_append.mp hmem with hl | hr
    · exact h2 hl
    · exact hne (List.mem_singleton.mp hr)
  refine ⟨by rw [hres], ?_⟩
  rw [hres]
  show addT (addT m.graph ⟨Node.bnode m.ctr, rdfType, owlRestriction⟩)
      ⟨Node.bnode m.ctr, owlOnProperty, resolveUri m p⟩ = _
  rw [addT_of_not_mem h1, addT_of_not_mem h2b, List.append_assoc]
  rfl

/-- Claim C9 witness: an unknown kind `bogus` on a fresh store leaves
exactly the two partial construction triples behind. -/
theorem claim9_add_restriction_error_after_two_triples_witness :
    (addRestriction (initManager (str "http://e#")) (str "C") (str "p") (str "bogus")
        (RVal.n 0) none).2
      = Except.error (str "Unknown restriction type: " ++ str "bogus") ∧
    (addRestriction (initManager (str "http://e#")) (str "C") (str "p") (str "bogus")
        (RVal.n 0) none).1.graph
      = (initManager (str "http://e#")).graph ++
        [⟨Node.bnode 0, rdfType, owlRestriction⟩,
         ⟨Node.bnode 0, owlOnProperty, resolveUri (initManager (str "http://e#")) (str "p")⟩] :=
  claim9_add_restriction_error_after_two_triples (initManager (str "http://e#"))
    (str "C") (str "p") (str "bogus") (RVal.n 0) none (by decide) (by decide) (by decide)

/-- Claim C10: for every entity kind and every name, `rename_X(n, n)`
returns true and leaves the manager completely unchanged — the equal-name
short circuit runs before any check or mutation. -/
theorem claim10_rename_same_name_noop (m : Manager) (n : Str) :
    renameClass m n n = (true, m) ∧ renameProperty m n n = (true, m) ∧
    renameIndividual m n n = (true, m) := by
  refine ⟨?_, ?_, ?_⟩
  · simp [renameClass]
  · simp [renameProperty]
  · simp [renameIndividual]

end Orion
